import Mathlib

/-!
# Verification of the Quantapp quantitative core

Shallow embedding of the quantitative analysis / simulation engine of the
repository (technical indicators, signal generators, position sizing, the
paper-trading portfolio and the backtest engine) over `ℚ`.

Conventions used throughout:
* JavaScript `number` values are modelled by `ℚ`; division by zero is the
  Lean convention `x / 0 = 0`.
* `Number(x.toFixed(2))` (round to 2 decimal places) is modelled by `round2`.
* JavaScript truthiness tests on optional numeric fields (`if (x)`,
  `x ? a : b`) hold exactly when the field is present and non-zero; they are
  modelled by `truthyQ`.
* `Date` values are modelled by their numeric timestamps (`ℤ`);
  human-readable strings (reasons, descriptions) are omitted from result
  records, as no verified property mentions them.
-/

/-- `Number(q.toFixed(2))`: round to the nearest multiple of `1/100`. -/
def round2 (q : ℚ) : ℚ := (round (q * 100) : ℚ) / 100

/-- JavaScript truthiness of an optional numeric field. -/
def truthyQ (o : Option ℚ) : Bool :=
  match o with
  | none => false
  | some v => v ≠ 0

theorem round2_sub_le (q : ℚ) : |round2 q - q| ≤ 1 / 200 := by
  have h := abs_sub_round (q * 100)
  rw [round2]
  have : (round (q * 100) : ℚ) / 100 - q = ((round (q * 100) : ℚ) - q * 100) / 100 := by
    ring
  rw [this, abs_div]
  rw [abs_sub_comm] at h
  have h100 : |(100 : ℚ)| = 100 := by norm_num
  rw [h100]
  linarith [h]

theorem round2_nonneg {q : ℚ} (h : 0 ≤ q) : 0 ≤ round2 q := by
  rw [round2]
  have : (0 : ℤ) ≤ round (q * 100) := by
    rw [round_eq]
    have : (0 : ℚ) ≤ q * 100 + 1 / 2 := by positivity
    exact Int.le_floor.mpr (by push_cast; linarith)
  positivity

theorem round2_le_100 {q : ℚ} (h : q ≤ 100) : round2 q ≤ 100 := by
  rw [round2]
  have hlt : round (q * 100) < (10001 : ℤ) := by
    rw [round_eq]
    exact Int.floor_lt.mpr (by push_cast; linarith)
  have hle : round (q * 100) ≤ (10000 : ℤ) := by omega
  have : (round (q * 100) : ℚ) ≤ 10000 := by exact_mod_cast hle
  linarith

/-! ## RSI (`src/lib/indicators/rsi.ts`) -/

/-- One step of the initial average-gain/average-loss accumulation
(`for (let i = 1; i <= period; i++)` in `calculateRSI`). -/
def rsiInitStep (acc : ℚ × ℚ) (change : ℚ) : ℚ × ℚ :=
  if 0 < change then (acc.1 + change, acc.2) else (acc.1, acc.2 + |change|)

/-- One step of Wilder's smoothing (`for (let i = period + 1; ...)` in
`calculateRSI`). -/
def rsiSmoothStep (period : ℕ) (acc : ℚ × ℚ) (change : ℚ) : ℚ × ℚ :=
  if 0 < change then
    ((acc.1 * ((period : ℚ) - 1) + change) / period, acc.2 * ((period : ℚ) - 1) / period)
  else
    (acc.1 * ((period : ℚ) - 1) / period, (acc.2 * ((period : ℚ) - 1) + |change|) / period)

/-- Consecutive price changes `prices[i] - prices[i-1]`. -/
def priceChanges (prices : List ℚ) : List ℚ :=
  List.zipWith (fun a b => b - a) prices prices.tail

/-- The smoothed `(avgGain, avgLoss)` pair computed by `calculateRSI` on
sufficient data. -/
def rsiAverages (prices : List ℚ) (period : ℕ) : ℚ × ℚ :=
  let changes := priceChanges prices
  let init := (changes.take period).foldl rsiInitStep (0, 0)
  let avg0 := (init.1 / period, init.2 / period)
  (changes.drop period).foldl (rsiSmoothStep period) avg0

/-- `calculateRSI` from `src/lib/indicators/rsi.ts`: neutral 50 on short input,
100 when the smoothed average loss is zero, otherwise
`100 - 100/(1 + avgGain/avgLoss)` rounded to 2 decimals. -/
def calculateRSI (prices : List ℚ) (period : ℕ) : ℚ :=
  if prices.length < period + 1 then 50
  else if (rsiAverages prices period).2 = 0 then 100
  else
    round2 (100 - 100 / (1 + (rsiAverages prices period).1 / (rsiAverages prices period).2))

theorem rsiInit_nonneg (l : List ℚ) (a : ℚ × ℚ) (ha1 : 0 ≤ a.1) (ha2 : 0 ≤ a.2) :
    0 ≤ (l.foldl rsiInitStep a).1 ∧ 0 ≤ (l.foldl rsiInitStep a).2 := by
  induction l generalizing a with
  | nil => exact ⟨ha1, ha2⟩
  | cons x xs ih =>
      simp only [List.foldl_cons]
      apply ih
      · unfold rsiInitStep
        split <;> simp <;> [linarith; exact ha1]
      · unfold rsiInitStep
        split <;> simp
        · exact ha2
        · have := abs_nonneg x; linarith

theorem rsiSmooth_nonneg (period : ℕ) (hp : 1 ≤ period) (l : List ℚ) (a : ℚ × ℚ)
    (ha1 : 0 ≤ a.1) (ha2 : 0 ≤ a.2) :
    0 ≤ (l.foldl (rsiSmoothStep period) a).1 ∧ 0 ≤ (l.foldl (rsiSmoothStep period) a).2 := by
  have hper : (0 : ℚ) ≤ (period : ℚ) - 1 := by
    have : (1 : ℚ) ≤ (period : ℚ) := by exact_mod_cast hp
    linarith
  have hpos : (0 : ℚ) ≤ (period : ℚ) := by positivity
  induction l generalizing a with
  | nil => exact ⟨ha1, ha2⟩
  | cons x xs ih =>
      simp only [List.foldl_cons]
      apply ih
      · unfold rsiSmoothStep
        split <;> simp only
        · have : 0 ≤ a.1 * ((period : ℚ) - 1) + x := by nlinarith
          positivity
        · positivity
      · unfold rsiSmoothStep
        split <;> simp only
        · positivity
        · have habs := abs_nonneg x
          have : 0 ≤ a.2 * ((period : ℚ) - 1) + |x| := by nlinarith
          positivity

theorem rsiAverages_nonneg (prices : List ℚ) (period : ℕ) (hp : 1 ≤ period) :
    0 ≤ (rsiAverages prices period).1 ∧ 0 ≤ (rsiAverages prices period).2 := by
  unfold rsiAverages
  have h0 := rsiInit_nonneg ((priceChanges prices).take period) (0, 0) le_rfl le_rfl
  apply rsiSmooth_nonneg period hp
  · have : (0 : ℚ) ≤ (period : ℚ) := by positivity
    exact div_nonneg h0.1 this
  · have : (0 : ℚ) ≤ (period : ℚ) := by positivity
    exact div_nonneg h0.2 this

theorem zipWith_sub_const (c : ℚ) (l : List ℚ) (hl : ∀ x ∈ l, x = c) :
    List.zipWith (fun a b => b - a) (c :: l) l = List.replicate l.length 0 := by
  induction l generalizing c with
  | nil => rfl
  | cons x xs ih =>
      have hx : x = c := hl x (by simp)
      simp only [List.zipWith_cons_cons, List.length_cons, List.replicate_succ]
      rw [hx, sub_self]
      exact congrArg (0 :: ·) (ih c (fun y hy => hl y (by simp [hy])))

theorem priceChanges_replicate (n : ℕ) (c : ℚ) :
    priceChanges (List.replicate n c) = List.replicate (n - 1) 0 := by
  unfold priceChanges
  cases n with
  | zero => simp
  | succ m =>
      have h := zipWith_sub_const c (List.replicate m c) (by
        intro x hx
        exact List.eq_of_mem_replicate hx)
      simp only [List.replicate_succ, List.tail_cons]
      rw [h]
      simp

theorem foldl_rsiInitStep_zero (m : ℕ) :
    (List.replicate m (0 : ℚ)).foldl rsiInitStep (0, 0) = (0, 0) := by
  induction m with
  | zero => rfl
  | succ k ih =>
      simp only [List.replicate_succ, List.foldl_cons]
      have : rsiInitStep (0, 0) 0 = (0, 0) := by
        unfold rsiInitStep; norm_num
      rw [this, ih]

theorem foldl_rsiSmoothStep_zero (period m : ℕ) :
    (List.replicate m (0 : ℚ)).foldl (rsiSmoothStep period) (0, 0) = (0, 0) := by
  induction m with
  | zero => rfl
  | succ k ih =>
      simp only [List.replicate_succ, List.foldl_cons]
      have : rsiSmoothStep period (0, 0) 0 = (0, 0) := by
        unfold rsiSmoothStep; norm_num
      rw [this, ih]

theorem rsiAverages_replicate (n : ℕ) (c : ℚ) (period : ℕ) :
    rsiAverages (List.replicate n c) period = (0, 0) := by
  unfold rsiAverages
  simp only [priceChanges_replicate, List.take_replicate, List.drop_replicate,
    foldl_rsiInitStep_zero]
  norm_num
  exact foldl_rsiSmoothStep_zero period _

/-- C4: `calculateRSI` always lies in `[0, 100]`; it is exactly 50 on fewer
than `period + 1` closes, exactly 100 when the Wilder-smoothed average loss
is zero, and in particular exactly 100 (not 50) on any long-enough constant
price series. -/
theorem C4_calculateRSI_range (prices : List ℚ) (period : ℕ) (hp : 1 ≤ period) :
    (0 ≤ calculateRSI prices period ∧ calculateRSI prices period ≤ 100) ∧
    (prices.length < period + 1 → calculateRSI prices period = 50) ∧
    (period + 1 ≤ prices.length → (rsiAverages prices period).2 = 0 →
      calculateRSI prices period = 100) ∧
    (∀ c n, period + 1 ≤ n → calculateRSI (List.replicate n c) period = 100) := by
  refine ⟨?_, ?_, ?_, ?_⟩
  · unfold calculateRSI
    split
    · norm_num
    · split
      · norm_num
      · rename_i hlen hne
        obtain ⟨hg, hl⟩ := rsiAverages_nonneg prices period hp
        have hlpos : 0 < (rsiAverages prices period).2 := lt_of_le_of_ne hl (Ne.symm hne)
        have hrs : 0 ≤ (rsiAverages prices period).1 / (rsiAverages prices period).2 :=
          div_nonneg hg (le_of_lt hlpos)
        have h1 : (0 : ℚ) < 1 + (rsiAverages prices period).1 / (rsiAverages prices period).2 := by
          linarith
        have hfrac1 : 100 / (1 + (rsiAverages prices period).1 / (rsiAverages prices period).2)
            ≤ 100 := by
          rw [div_le_iff₀ h1]; nlinarith
        have hfrac0 : 0 < 100 / (1 + (rsiAverages prices period).1 /
            (rsiAverages prices period).2) := by positivity
        exact ⟨round2_nonneg (by linarith), round2_le_100 (by linarith)⟩
  · intro h
    unfold calculateRSI
    simp [h]
  · intro hlen hzero
    unfold calculateRSI
    rw [if_neg (by omega), if_pos hzero]
  · intro c n hn
    unfold calculateRSI
    rw [if_neg (by simp; omega)]
    rw [if_pos (by rw [rsiAverages_replicate])]

/-- Witness for C4 at a concrete input: a constant series of 20 ones with
period 14 gives RSI 100, and the range bound holds there. -/
theorem C4_calculateRSI_range_witness :
    (0 ≤ calculateRSI (List.replicate 20 1) 14 ∧ calculateRSI (List.replicate 20 1) 14 ≤ 100) ∧
    calculateRSI (List.replicate 20 1) 14 = 100 := by
  have h := C4_calculateRSI_range (List.replicate 20 1) 14 (by norm_num)
  exact ⟨h.1, h.2.2.2 1 20 (by norm_num)⟩

/-! ## EMA / MACD (`src/lib/indicators/macd.ts`) -/

/-- The recursive part of `calculateEMA`: `ema[i] = prices[i]*k + ema[i-1]*(1-k)`. -/
def emaGo (k : ℚ) (prev : ℚ) : List ℚ → List ℚ
  | [] => []
  | x :: xs => (x * k + prev * (1 - k)) :: emaGo k (x * k + prev * (1 - k)) xs

/-- `calculateEMA` from `src/lib/indicators/macd.ts`: seed is the first value,
smoothing factor `k = 2/(period+1)`, no warm-up discard. -/
def calculateEMA (prices : List ℚ) (period : ℕ) : List ℚ :=
  match prices with
  | [] => []
  | p :: ps => p :: emaGo (2 / ((period : ℚ) + 1)) p ps

/-- `MACDResult` value object. -/
structure MACDResult where
  macd : ℚ
  signal : ℚ
  histogram : ℚ
deriving DecidableEq

/-- The unrounded MACD line: `EMA(fast).last - EMA(slow).last`. -/
def macdLineOf (prices : List ℚ) (fastPeriod slowPeriod : ℕ) : ℚ :=
  (calculateEMA prices fastPeriod).getLastD 0 - (calculateEMA prices slowPeriod).getLastD 0

/-- The per-index MACD values `ema12[i] - ema26[i]`. -/
def macdValuesOf (prices : List ℚ) (fastPeriod slowPeriod : ℕ) : List ℚ :=
  List.zipWith (fun a b => a - b) (calculateEMA prices fastPeriod)
    (calculateEMA prices slowPeriod)

/-- The unrounded signal line value: last entry of `EMA(MACD values, signalPeriod)`. -/
def macdSignalOf (prices : List ℚ) (fastPeriod slowPeriod signalPeriod : ℕ) : ℚ :=
  (calculateEMA (macdValuesOf prices fastPeriod slowPeriod) signalPeriod).getLastD 0

/-- `calculateMACD` from `src/lib/indicators/macd.ts`: all-zero on input shorter
than `slowPeriod`, otherwise each field rounded to 2 decimals independently. -/
def calculateMACD (prices : List ℚ) (fastPeriod slowPeriod signalPeriod : ℕ) : MACDResult :=
  if prices.length < slowPeriod then ⟨0, 0, 0⟩
  else
    ⟨round2 (macdLineOf prices fastPeriod slowPeriod),
     round2 (macdSignalOf prices fastPeriod slowPeriod signalPeriod),
     round2 (macdLineOf prices fastPeriod slowPeriod -
       macdSignalOf prices fastPeriod slowPeriod signalPeriod)⟩

theorem round2_sub_round2 (x y : ℚ) : |round2 (x - y) - (round2 x - round2 y)| ≤ 1 / 100 := by
  have h1 := abs_sub_round ((x - y) * 100)
  have h2 := abs_sub_round (x * 100)
  have h3 := abs_sub_round (y * 100)
  set a := round ((x - y) * 100) with ha
  set b := round (x * 100) with hb
  set c := round (y * 100) with hc
  have habs : |(a : ℚ) - b + c| ≤ 3 / 2 := by
    have hsum : (a : ℚ) - b + c
        = ((x - y) * 100 - a) * (-1) + (x * 100 - b) - (y * 100 - c) := by ring
    rw [hsum]
    calc |((x - y) * 100 - a) * (-1) + (x * 100 - b) - (y * 100 - c)|
        ≤ |((x - y) * 100 - a) * (-1) + (x * 100 - b)| + |y * 100 - c| :=
          abs_sub _ _
      _ ≤ |((x - y) * 100 - a) * (-1)| + |x * 100 - b| + |y * 100 - c| := by
          have := abs_add (((x - y) * 100 - a) * (-1)) (x * 100 - b)
          linarith
      _ ≤ 3 / 2 := by
          rw [abs_mul]
          simp only [abs_neg, abs_one]
          linarith
  have hint : |a - b + c| ≤ (1 : ℤ) := by
    have h2' : ((|a - b + c| : ℤ) : ℚ) ≤ 3 / 2 := by push_cast; exact habs
    have hlt : (|a - b + c| : ℤ) < 2 := by
      by_contra hcon
      push_neg at hcon
      have : ((2 : ℤ) : ℚ) ≤ ((|a - b + c| : ℤ) : ℚ) := by exact_mod_cast hcon
      norm_num at this
      linarith
    omega
  have heq : round2 (x - y) - (round2 x - round2 y) = ((a : ℚ) - b + c) / 100 := by
    unfold round2
    rw [← ha, ← hb, ← hc]
    ring
  rw [heq, abs_div]
  have h100 : |(100 : ℚ)| = 100 := by norm_num
  rw [h100, div_le_iff₀ (by norm_num : (0 : ℚ) < 100)]
  have hfin : |(a : ℚ) - b + c| ≤ 1 := by
    have := hint
    have hcast : ((|a - b + c| : ℤ) : ℚ) ≤ 1 := by exact_mod_cast this
    push_cast at hcast
    exact hcast
  linarith

/-- C6: on input of length at least `slowPeriod` the MACD histogram equals
`macd - signal` up to the independent 2-decimal rounding of the three fields
(difference at most `1/100`); on shorter input the result is exactly
`{macd := 0, signal := 0, histogram := 0}`. -/
theorem C6_macd_histogram (prices : List ℚ) (fastPeriod slowPeriod signalPeriod : ℕ) :
    (prices.length < slowPeriod →
      calculateMACD prices fastPeriod slowPeriod signalPeriod = ⟨0, 0, 0⟩) ∧
    (slowPeriod ≤ prices.length →
      |(calculateMACD prices fastPeriod slowPeriod signalPeriod).histogram -
        ((calculateMACD prices fastPeriod slowPeriod signalPeriod).macd -
          (calculateMACD prices fastPeriod slowPeriod signalPeriod).signal)| ≤ 1 / 100) := by
  constructor
  · intro h
    unfold calculateMACD
    rw [if_pos h]
  · intro h
    unfold calculateMACD
    rw [if_neg (by omega)]
    exact round2_sub_round2 _ _

/-- Witness for C6 at a concrete input of length 3 ≥ slowPeriod 2. -/
theorem C6_macd_histogram_witness :
    |(calculateMACD [1, 5, 2] 1 2 1).histogram -
      ((calculateMACD [1, 5, 2] 1 2 1).macd - (calculateMACD [1, 5, 2] 1 2 1).signal)|
      ≤ 1 / 100 :=
  (C6_macd_histogram [1, 5, 2] 1 2 1).2 (by norm_num)

/-! ## Position sizing (`src/lib/portfolio/position-sizing.ts`) -/

/-- `PositionSizeResult` value object. `shares` is integral
(`Math.floor` in every sizing method). -/
structure PositionSizeResult where
  shares : ℤ
  dollarAmount : ℚ
  riskAmount : ℚ
  method : String
  confidence : ℤ
deriving DecidableEq

/-- `fixedDollarSize`. -/
def fixedDollarSize (accountSize fixedAmount price : ℚ) : PositionSizeResult :=
  let shares := ⌊fixedAmount / price⌋
  { shares := shares, dollarAmount := (shares : ℚ) * price, riskAmount := 0,
    method := "fixed_dollar", confidence := 100 }

/-- `fixedPercentSize`. -/
def fixedPercentSize (accountSize percent price : ℚ) : PositionSizeResult :=
  let dollarAmount := accountSize * (percent / 100)
  let shares := ⌊dollarAmount / price⌋
  { shares := shares, dollarAmount := (shares : ℚ) * price, riskAmount := 0,
    method := "fixed_percent", confidence := 100 }

/-- The clamped Kelly fraction `Math.max(0, Math.min((b·p - q)/b, 0.5))` on
the finite-value path (`avgWinLossRatio ≠ 0`, the only way `kellySize` is
reached from `calculateOptimalSize`, whose truthiness guard requires it).
The full JS float semantics of the same lines, NaN/Infinity included, is
`kellyClampedJs` below. -/
def kellyClamped (winRate avgWinLossRatio : ℚ) : ℚ :=
  max 0 (min ((avgWinLossRatio * winRate - (1 - winRate)) / avgWinLossRatio) (1 / 2))

/-- `kellySize`: fractional Kelly (default 0.25) applied after clamping —
finite-value path, see `kellySizeJs` for the float-faithful version. -/
def kellySize (accountSize price winRate avgWinLossRatio : ℚ)
    (fractionalKelly : ℚ := 1 / 4) : PositionSizeResult :=
  let finalKelly := kellyClamped winRate avgWinLossRatio * fractionalKelly
  let dollarAmount := accountSize * finalKelly
  let shares := ⌊dollarAmount / price⌋
  { shares := shares, dollarAmount := (shares : ℚ) * price, riskAmount := 0,
    method := "kelly_criterion", confidence := round (finalKelly * 100) }

/-- A JavaScript `number` as far as `kellySize` can observe it: a finite
value, a signed infinity, or NaN. -/
inductive JsNum
  | num (q : ℚ)
  | posInf
  | negInf
  | nan
deriving DecidableEq

/-- JS division of two finite values: `x/0` is `±Infinity` by the sign of
`x` and `0/0` is `NaN` (a negative-zero denominator does not arise from a
rational model). -/
def jsDivQ (a b : ℚ) : JsNum :=
  if b = 0 then (if a = 0 then .nan else if 0 < a then .posInf else .negInf)
  else .num (a / b)

/-- `Math.min(x, c)` with finite `c`: NaN propagates. -/
def jsMin (x : JsNum) (c : ℚ) : JsNum :=
  match x with
  | .nan => .nan
  | .posInf => .num c
  | .negInf => .negInf
  | .num q => .num (min q c)

/-- `Math.max(c, x)` with finite `c`: NaN propagates. -/
def jsMax (c : ℚ) (x : JsNum) : JsNum :=
  match x with
  | .nan => .nan
  | .posInf => .posInf
  | .negInf => .num c
  | .num q => .num (max c q)

/-- `x * c` with finite `c`: NaN propagates, `±Infinity · 0 = NaN`. -/
def jsMulQ (x : JsNum) (c : ℚ) : JsNum :=
  match x with
  | .nan => .nan
  | .num q => .num (q * c)
  | .posInf => if c = 0 then .nan else if 0 < c then .posInf else .negInf
  | .negInf => if c = 0 then .nan else if 0 < c then .negInf else .posInf

/-- `x / c` with finite `c`: NaN propagates, `±Infinity` keeps or flips sign. -/
def jsDivByQ (x : JsNum) (c : ℚ) : JsNum :=
  match x with
  | .nan => .nan
  | .num q => jsDivQ q c
  | .posInf => if c < 0 then .negInf else .posInf
  | .negInf => if c < 0 then .posInf else .negInf

/-- `Math.floor`: NaN and the infinities are fixed points. -/
def jsFloor (x : JsNum) : JsNum :=
  match x with
  | .num q => .num (⌊q⌋ : ℚ)
  | other => other

/-- `Math.round`: NaN and the infinities are fixed points. -/
def jsRound (x : JsNum) : JsNum :=
  match x with
  | .num q => .num (round q : ℚ)
  | other => other

/-- The Kelly fraction of `kellySize` under full JS float semantics:
`Math.max(0, Math.min((b·p - q)/b, 0.5))` with the unguarded division — at
`winRate = 1, avgWinLossRatio = 0` the division is `0/0 = NaN` and the
min/max chain propagates it instead of clamping. -/
def kellyClampedJs (winRate avgWinLossRatio : ℚ) : JsNum :=
  jsMax 0 (jsMin (jsDivQ (avgWinLossRatio * winRate - (1 - winRate)) avgWinLossRatio) (1 / 2))

/-- `PositionSizeResult` as produced by `kellySize` under float semantics:
the numeric fields may be NaN. -/
structure KellyResultJs where
  shares : JsNum
  dollarAmount : JsNum
  riskAmount : ℚ
  method : String
  confidence : JsNum
deriving DecidableEq

/-- `kellySize` under full JS float semantics (multiplication reordering is
sound: JS multiplication is commutative also on NaN and infinities). -/
def kellySizeJs (accountSize price winRate avgWinLossRatio : ℚ)
    (fractionalKelly : ℚ := 1 / 4) : KellyResultJs :=
  let finalKelly := jsMulQ (kellyClampedJs winRate avgWinLossRatio) fractionalKelly
  let dollarAmount := jsMulQ finalKelly accountSize
  let shares := jsFloor (jsDivByQ dollarAmount price)
  { shares := shares, dollarAmount := jsMulQ shares price, riskAmount := 0,
    method := "kelly_criterion", confidence := jsRound (jsMulQ finalKelly 100) }

/-- `atrBasedSize`: `shares = floor(riskAmount / (atr·multiplier))`. -/
def atrBasedSize (accountSize riskPercent entryPrice atr : ℚ)
    (atrMultiplier : ℚ := 2) : PositionSizeResult :=
  let riskAmount := accountSize * (riskPercent / 100)
  let stopDistance := atr * atrMultiplier
  let shares := ⌊riskAmount / stopDistance⌋
  { shares := shares, dollarAmount := (shares : ℚ) * entryPrice, riskAmount := riskAmount,
    method := "atr_based", confidence := 100 }

/-- `volatilityAdjustedSize`: base percentage scaled by
`targetVolatility/currentVolatility`, clamped to `[0.5, 50]` percent. -/
def volatilityAdjustedSize (accountSize basePercent price currentVolatility : ℚ)
    (targetVolatility : ℚ := 15) : PositionSizeResult :=
  let volRatio := targetVolatility / currentVolatility
  let adjustedPercent := basePercent * volRatio
  let finalPercent := max (1 / 2) (min adjustedPercent 50)
  let dollarAmount := accountSize * (finalPercent / 100)
  let shares := ⌊dollarAmount / price⌋
  { shares := shares, dollarAmount := (shares : ℚ) * price, riskAmount := 0,
    method := "volatility_adjusted",
    confidence := round ((targetVolatility / currentVolatility) * 100) }

/-- `confidenceBasedSize`: percentage linearly interpolated between
`basePercent` and `maxPercent` by confidence. -/
def confidenceBasedSize (accountSize price confidence : ℚ)
    (basePercent : ℚ := 5) (maxPercent : ℚ := 20) : PositionSizeResult :=
  let scaledPercent := basePercent + (confidence / 100) * (maxPercent - basePercent)
  let dollarAmount := accountSize * (scaledPercent / 100)
  let shares := ⌊dollarAmount / price⌋
  { shares := shares, dollarAmount := (shares : ℚ) * price, riskAmount := 0,
    method := "confidence_based", confidence := round scaledPercent }

/-- The optional parameter record taken by `calculateOptimalSize`. -/
structure OptimalSizeParams where
  riskPercent : Option ℚ := none
  atr : Option ℚ := none
  atrMultiplier : Option ℚ := none
  winRate : Option ℚ := none
  avgWinLossRatio : Option ℚ := none
  volatility : Option ℚ := none
  confidence : Option ℚ := none

/-- The `results` list assembled by `calculateOptimalSize`: one entry per
sizing method whose required parameters are truthy, in source order. -/
def optimalCandidates (accountSize price : ℚ) (params : OptimalSizeParams) :
    List PositionSizeResult :=
  (if truthyQ params.atr && truthyQ params.riskPercent then
    [atrBasedSize accountSize (params.riskPercent.getD 0) price (params.atr.getD 0)
      (params.atrMultiplier.getD 2)]
  else []) ++
  (if truthyQ params.winRate && truthyQ params.avgWinLossRatio then
    [kellySize accountSize price (params.winRate.getD 0) (params.avgWinLossRatio.getD 0)]
  else []) ++
  (if truthyQ params.volatility then
    [volatilityAdjustedSize accountSize 10 price (params.volatility.getD 0)]
  else []) ++
  (if truthyQ params.confidence then
    [confidenceBasedSize accountSize price (params.confidence.getD 0)]
  else [])

/-- `results.reduce((min, current) => current.shares < min.shares ? current : min)`. -/
def reduceMinShares (init : PositionSizeResult) (l : List PositionSizeResult) :
    PositionSizeResult :=
  l.foldl (fun m c => if c.shares < m.shares then c else m) init

/-- `calculateOptimalSize`: run every applicable method, fall back to a fixed
5% sizing when none applies, and return the entry with the smallest shares. -/
def calculateOptimalSize (accountSize price : ℚ) (params : OptimalSizeParams) :
    PositionSizeResult :=
  match optimalCandidates accountSize price params with
  | [] => reduceMinShares (fixedPercentSize accountSize 5 price) []
  | h :: t => reduceMinShares h t

theorem reduceMinShares_le_init (l : List PositionSizeResult) (i : PositionSizeResult) :
    (reduceMinShares i l).shares ≤ i.shares := by
  induction l generalizing i with
  | nil => exact le_refl _
  | cons x xs ih =>
      unfold reduceMinShares at *
      simp only [List.foldl_cons]
      refine le_trans (ih _) ?_
      split
      · omega
      · exact le_refl _

theorem reduceMinShares_le_mem (l : List PositionSizeResult) (i x : PositionSizeResult)
    (hx : x ∈ l) : (reduceMinShares i l).shares ≤ x.shares := by
  induction l generalizing i with
  | nil => cases hx
  | cons y ys ih =>
      unfold reduceMinShares at *
      simp only [List.foldl_cons]
      rcases List.mem_cons.mp hx with h | h
      · subst h
        refine le_trans (reduceMinShares_le_init ys _) ?_
        split
        · exact le_refl _
        · omega
      · exact ih _ h

theorem calculateOptimalSize_le_mem (accountSize price : ℚ) (params : OptimalSizeParams)
    (x : PositionSizeResult) (hx : x ∈ optimalCandidates accountSize price params) :
    (calculateOptimalSize accountSize price params).shares ≤ x.shares := by
  have hres : ∀ hd tl, optimalCandidates accountSize price params = hd :: tl →
      calculateOptimalSize accountSize price params = reduceMinShares hd tl := by
    intro hd tl hEq
    unfold calculateOptimalSize
    rw [hEq]
  cases hcand : optimalCandidates accountSize price params with
  | nil => rw [hcand] at hx; cases hx
  | cons hd tl =>
      rw [hres hd tl hcand]
      rw [hcand] at hx
      rcases List.mem_cons.mp hx with he | he
      · subst he; exact reduceMinShares_le_init tl _
      · exact reduceMinShares_le_mem tl hd x he

theorem kellyClampedJs_of_ne (winRate avgWinLossRatio : ℚ) (hb : avgWinLossRatio ≠ 0) :
    kellyClampedJs winRate avgWinLossRatio = .num (kellyClamped winRate avgWinLossRatio) := by
  unfold kellyClampedJs jsDivQ
  rw [if_neg hb]
  simp [jsMin, jsMax, kellyClamped, max_comm]

/-- C7 counterexample: at `winRate = 1`, `avgWinLossRatio = 0` — inside the
degenerate domain the claim quantifies over — the unguarded division is
`0/0 = NaN`, the min/max chain propagates it, and the resulting dollar
amount is NaN rather than a value bounded by `accountSize·0.5·fractionalKelly`. -/
theorem C7_counterexample :
    kellyClampedJs 1 0 = JsNum.nan ∧
    (¬∃ q : ℚ, kellyClampedJs 1 0 = JsNum.num q ∧ 0 ≤ q ∧ q ≤ 1 / 2) ∧
    (kellySizeJs 1000 10 1 0 (1 / 4)).dollarAmount = JsNum.nan ∧
    (¬∃ d : ℚ, (kellySizeJs 1000 10 1 0 (1 / 4)).dollarAmount = JsNum.num d ∧
      d ≤ 1000 * (1 / 2) * (1 / 4)) := by
  have h1 : kellyClampedJs 1 0 = JsNum.nan := by
    norm_num [kellyClampedJs, jsDivQ, jsMin, jsMax]
  have h2 : (kellySizeJs 1000 10 1 0 (1 / 4)).dollarAmount = JsNum.nan := by
    norm_num [kellySizeJs, h1, jsMulQ, jsDivByQ, jsFloor]
  refine ⟨h1, ?_, h2, ?_⟩
  · rintro ⟨q, hq, -⟩
    rw [h1] at hq
    exact JsNum.noConfusion hq
  · rintro ⟨d, hd, -⟩
    rw [h2] at hd
    exact JsNum.noConfusion hd

/-- C7 (amended): for every input other than the NaN point
`winRate = 1 ∧ avgWinLossRatio = 0`, the Kelly fraction is a finite value
clamped into `[0, 1/2]` before the fractional multiplier is applied, and the
invested dollar amount is finite and never exceeds
`accountSize · 0.5 · fractionalKelly`. -/
theorem C7_kelly_clamp_amended (accountSize price winRate avgWinLossRatio fractionalKelly : ℚ)
    (hnd : ¬(winRate = 1 ∧ avgWinLossRatio = 0))
    (ha : 0 ≤ accountSize) (hp : 0 < price) (hf : 0 ≤ fractionalKelly) :
    ∃ q d : ℚ,
      kellyClampedJs winRate avgWinLossRatio = JsNum.num q ∧ 0 ≤ q ∧ q ≤ 1 / 2 ∧
      (kellySizeJs accountSize price winRate avgWinLossRatio fractionalKelly).dollarAmount =
        JsNum.num d ∧
      d ≤ accountSize * (1 / 2) * fractionalKelly := by
  have hclamp : ∃ q : ℚ, kellyClampedJs winRate avgWinLossRatio = JsNum.num q ∧
      0 ≤ q ∧ q ≤ 1 / 2 := by
    by_cases hb : avgWinLossRatio = 0
    · have hw : winRate ≠ 1 := fun h => hnd ⟨h, hb⟩
      subst hb
      have hnum : (0 * winRate - (1 - winRate)) = winRate - 1 := by ring
      rcases (sub_ne_zero.mpr hw).lt_or_lt with hlt | hgt
      · refine ⟨0, ?_, le_refl 0, by norm_num⟩
        unfold kellyClampedJs jsDivQ
        rw [if_pos rfl, hnum, if_neg (sub_ne_zero.mpr hw), if_neg (by linarith)]
        simp [jsMin, jsMax]
      · refine ⟨1 / 2, ?_, by norm_num, le_refl _⟩
        unfold kellyClampedJs jsDivQ
        rw [if_pos rfl, hnum, if_neg (sub_ne_zero.mpr hw), if_pos hgt]
        simp [jsMin, jsMax]
    · exact ⟨kellyClamped winRate avgWinLossRatio, kellyClampedJs_of_ne _ _ hb,
        le_max_left _ _, max_le (by norm_num) (min_le_right _ _)⟩
  obtain ⟨q, hq, hq0, hq12⟩ := hclamp
  refine ⟨q, (⌊q * fractionalKelly * accountSize / price⌋ : ℚ) * price, hq, hq0, hq12, ?_, ?_⟩
  · simp [kellySizeJs, hq, jsMulQ, jsDivByQ, jsDivQ, jsFloor, hp.ne']
  · have hfloor : (⌊q * fractionalKelly * accountSize / price⌋ : ℚ) ≤
        q * fractionalKelly * accountSize / price := Int.floor_le _
    have hmul : (⌊q * fractionalKelly * accountSize / price⌋ : ℚ) * price ≤
        q * fractionalKelly * accountSize := by
      calc (⌊q * fractionalKelly * accountSize / price⌋ : ℚ) * price
          ≤ q * fractionalKelly * accountSize / price * price :=
            mul_le_mul_of_nonneg_right hfloor (le_of_lt hp)
        _ = q * fractionalKelly * accountSize := by field_simp
    have hstep : q * fractionalKelly * accountSize ≤
        accountSize * (1 / 2) * fractionalKelly := by
      nlinarith [mul_nonneg (mul_nonneg ha hf) (sub_nonneg.mpr hq12)]
    linarith

/-- Witness for the amended C7 at the degenerate input `winRate = 0`,
`avgWinLossRatio = 0` (the division yields `-Infinity`, clamped to 0). -/
theorem C7_kelly_clamp_amended_witness :
    ∃ q d : ℚ,
      kellyClampedJs 0 0 = JsNum.num q ∧ 0 ≤ q ∧ q ≤ 1 / 2 ∧
      (kellySizeJs 1000 10 0 0 (1 / 4)).dollarAmount = JsNum.num d ∧
      d ≤ 1000 * (1 / 2) * (1 / 4) :=
  C7_kelly_clamp_amended 1000 10 0 0 (1 / 4) (by norm_num) (by norm_num) (by norm_num)
    (by norm_num)

/-- C9: `calculateOptimalSize` is at most every individual sizing method it
runs (methods are run exactly when their required parameters are truthy), and
when no method applies it is at most the fixed 5% fallback. -/
theorem C9_optimal_most_conservative (accountSize price : ℚ) (params : OptimalSizeParams) :
    ((truthyQ params.atr && truthyQ params.riskPercent) = true →
      (calculateOptimalSize accountSize price params).shares ≤
        (atrBasedSize accountSize (params.riskPercent.getD 0) price (params.atr.getD 0)
          (params.atrMultiplier.getD 2)).shares) ∧
    ((truthyQ params.winRate && truthyQ params.avgWinLossRatio) = true →
      (calculateOptimalSize accountSize price params).shares ≤
        (kellySize accountSize price (params.winRate.getD 0)
          (params.avgWinLossRatio.getD 0)).shares) ∧
    (truthyQ params.volatility = true →
      (calculateOptimalSize accountSize price params).shares ≤
        (volatilityAdjustedSize accountSize 10 price (params.volatility.getD 0)).shares) ∧
    (truthyQ params.confidence = true →
      (calculateOptimalSize accountSize price params).shares ≤
        (confidenceBasedSize accountSize price (params.confidence.getD 0)).shares) ∧
    ((truthyQ params.atr && truthyQ params.riskPercent) = false →
      (truthyQ params.winRate && truthyQ params.avgWinLossRatio) = false →
      truthyQ params.volatility = false →
      truthyQ params.confidence = false →
      (calculateOptimalSize accountSize price params).shares ≤
        (fixedPercentSize accountSize 5 price).shares) := by
  refine ⟨?_, ?_, ?_, ?_, ?_⟩
  · intro hcond
    apply calculateOptimalSize_le_mem
    unfold optimalCandidates
    rw [if_pos hcond]
    simp
  · intro hcond
    apply calculateOptimalSize_le_mem
    unfold optimalCandidates
    rw [if_pos hcond]
    simp
  · intro hcond
    apply calculateOptimalSize_le_mem
    unfold optimalCandidates
    rw [if_pos hcond]
    simp
  · intro hcond
    apply calculateOptimalSize_le_mem
    unfold optimalCandidates
    rw [if_pos hcond]
    simp
  · intro h1 h2 h3 h4
    have hnil : optimalCandidates accountSize price params = [] := by
      unfold optimalCandidates
      rw [if_neg (by simp [h1]), if_neg (by simp [h2]), if_neg (by simp [h3]),
        if_neg (by simp [h4])]
      rfl
    unfold calculateOptimalSize
    rw [hnil]
    exact le_refl _

/-- Witness for C9: with only ATR parameters supplied, the optimal size is at
most the ATR-based size. -/
theorem C9_optimal_most_conservative_witness :
    (calculateOptimalSize 1000 10 ⟨some 1, some 1, none, none, none, none, none⟩).shares ≤
      (atrBasedSize 1000 1 10 1 2).shares :=
  (C9_optimal_most_conservative 1000 10 ⟨some 1, some 1, none, none, none, none, none⟩).1
    (by decide)

/-! ## Signal generators (`src/lib/strategies/signals.ts`,
`src/lib/strategies/comprehensive.ts`, ATR helper from the indicator library)

The per-indicator computations that feed the generators (risk scorer,
Bollinger, ADX, …) involve square roots, so the generators are embedded as
their decision cores: functions of the indicator outputs.  The scoring,
thresholding and target/stop-loss logic is translated line by line from the
source. -/

/-- Directional vote of an indicator helper (`BUY`/`SELL`/`HOLD`). -/
inductive SigType
  | BUY
  | SELL
  | HOLD
deriving DecidableEq

/-- Risk level of `RiskScore`. -/
inductive RiskLevel
  | LOW
  | MEDIUM
  | HIGH
  | EXTREME
deriving DecidableEq

/-- A `{signal, strength}` vote as returned by `getRSISignal`,
`getMACDSignal`, `getVolumeSignal`. -/
structure IndicatorVote where
  signal : SigType
  strength : ℚ
deriving DecidableEq

/-- `getRiskRecommendation(...).stopLossPercent` (risk module): 3/5/7/10 by
risk level. -/
def stopLossPercentOf : RiskLevel → ℚ
  | .LOW => 3
  | .MEDIUM => 5
  | .HIGH => 7
  | .EXTREME => 10

/-- Position direction for the ATR stop-loss helper. -/
inductive TradeDirection
  | long
  | short
deriving DecidableEq

/-- `calculateATRStopLoss` (ATR indicator module): `entry ∓ multiplier·ATR`,
rounded to 2 decimals. -/
def calculateATRStopLoss (entryPrice atr : ℚ) (multiplier : ℚ := 2)
    (direction : TradeDirection := .long) : ℚ :=
  if direction = .long then round2 (entryPrice - atr * multiplier)
  else round2 (entryPrice + atr * multiplier)

/-- Signal record: the numeric fields of `TradingSignal` /
`ComprehensiveSignal.signal` (reason strings omitted). -/
structure TradingSignalRec where
  type : SigType
  confidence : ℚ
  entryPrice : ℚ
  targetPrice : Option ℚ
  stopLoss : Option ℚ
  riskReward : Option ℚ
deriving DecidableEq

/-- The weighted confidence score of `generateSignal` (`signals.ts`):
RSI 30%, MACD 35%, volume 25%, ±10 risk adjustment. -/
def signalConfidenceScore (rsiSig macdSig volSig : IndicatorVote)
    (riskLevel : RiskLevel) : ℚ :=
  (match rsiSig.signal with
    | .BUY => rsiSig.strength * (3 / 10)
    | .SELL => -(rsiSig.strength * (3 / 10))
    | .HOLD => 0) +
  (match macdSig.signal with
    | .BUY => macdSig.strength * (35 / 100)
    | .SELL => -(macdSig.strength * (35 / 100))
    | .HOLD => 0) +
  (match volSig.signal with
    | .BUY => volSig.strength * (1 / 4)
    | .SELL => -(volSig.strength * (1 / 4))
    | .HOLD => 0) +
  (match riskLevel with
    | .LOW => 10
    | .MEDIUM => 0
    | .HIGH => -10
    | .EXTREME => -10)

/-- BUY target of `generateSignal`: +8% when risk is LOW, else +6%. -/
def signalBuyTarget (currentPrice : ℚ) (riskLevel : RiskLevel) : ℚ :=
  currentPrice * (1 + (if riskLevel = .LOW then 8 / 100 else 6 / 100))

/-- BUY stop-loss of `generateSignal`: from the risk recommendation. -/
def signalBuyStop (currentPrice : ℚ) (riskLevel : RiskLevel) : ℚ :=
  currentPrice * (1 - stopLossPercentOf riskLevel / 100)

/-- Decision core of `generateSignal` (`signals.ts`): neutral HOLD on fewer
than 30 closes/volumes; BUY above +50, SELL below −50; BUY targets from the
risk recommendation, SELL targets fixed at −6%/+4%. -/
def generateSignalCore (prices volumes : List ℚ) (rsiSig macdSig volSig : IndicatorVote)
    (riskLevel : RiskLevel) : TradingSignalRec :=
  if prices.length < 30 ∨ volumes.length < 30 then
    ⟨.HOLD, 0, prices.getLastD 0, none, none, none⟩
  else if 50 < signalConfidenceScore rsiSig macdSig volSig riskLevel then
    ⟨.BUY, round2 |signalConfidenceScore rsiSig macdSig volSig riskLevel|, prices.getLastD 0,
      some (signalBuyTarget (prices.getLastD 0) riskLevel),
      some (signalBuyStop (prices.getLastD 0) riskLevel),
      some ((signalBuyTarget (prices.getLastD 0) riskLevel - prices.getLastD 0) /
        (prices.getLastD 0 - signalBuyStop (prices.getLastD 0) riskLevel))⟩
  else if signalConfidenceScore rsiSig macdSig volSig riskLevel < -50 then
    ⟨.SELL, round2 |signalConfidenceScore rsiSig macdSig volSig riskLevel|, prices.getLastD 0,
      some (prices.getLastD 0 * (94 / 100)), some (prices.getLastD 0 * (104 / 100)), none⟩
  else
    ⟨.HOLD, round2 |signalConfidenceScore rsiSig macdSig volSig riskLevel|, prices.getLastD 0,
      none, none, none⟩

/-- VWAP position of price (`vwap.signal`). -/
inductive VwapSide
  | above
  | below
  | neutral
deriving DecidableEq

/-- Ichimoku cloud verdict (`ichimoku.signal`). -/
inductive TrendSignal
  | bullish
  | bearish
  | neutral
deriving DecidableEq

/-- The indicator outputs consumed by the decision part of
`generateComprehensiveSignal`. -/
structure ComprehensiveInputs where
  rsi : ℚ
  macdHistogram : ℚ
  percentB : ℚ
  adx : ℚ
  adxSignal : SigType
  atr : ℚ
  stochSignal : SigType
  vwapSignal : VwapSide
  supertrendSignal : SigType
  ichimokuSignal : TrendSignal
  psarSignal : SigType
  volumeSignal : SigType
  riskLevel : RiskLevel
deriving DecidableEq

/-- The weighted confidence score of `generateComprehensiveSignal`
(`comprehensive.ts` steps 1–12). -/
def comprehensiveScore (ind : ComprehensiveInputs) : ℚ :=
  (if ind.rsi < 30 then 10
    else if 70 < ind.rsi then -10
    else if 50 ≤ ind.rsi ∧ ind.rsi ≤ 60 then 5 else 0) +
  (if 0 < ind.macdHistogram then 15 else -15) +
  (if ind.percentB < 1 / 5 then 10 else if 4 / 5 < ind.percentB then -10 else 0) +
  (if 25 < ind.adx then
    (if ind.adxSignal = .BUY then 15 else if ind.adxSignal = .SELL then -15 else 0)
   else 0) +
  (if ind.stochSignal = .BUY then 10 else if ind.stochSignal = .SELL then -10 else 0) +
  (match ind.vwapSignal with | .above => 5 | .below => -5 | .neutral => 0) +
  (if ind.supertrendSignal = .BUY then 10 else if ind.supertrendSignal = .SELL then -10 else 0) +
  (match ind.ichimokuSignal with | .bullish => 10 | .bearish => -10 | .neutral => 0) +
  (if ind.psarSignal = .BUY then 5 else if ind.psarSignal = .SELL then -5 else 0) +
  (if ind.volumeSignal = .BUY then 5 else if ind.volumeSignal = .SELL then -5 else 0) +
  (match ind.riskLevel with | .LOW => 5 | .MEDIUM => 0 | .HIGH => -5 | .EXTREME => -5)

/-- BUY target of `generateComprehensiveSignal`: `entry + (3 or 2.5)·ATR`. -/
def compBuyTarget (currentPrice : ℚ) (ind : ComprehensiveInputs) : ℚ :=
  currentPrice + ind.atr * (if ind.riskLevel = .LOW then 3 else 5 / 2)

/-- BUY risk/reward of `generateComprehensiveSignal` (before output rounding). -/
def compBuyRR (currentPrice : ℚ) (ind : ComprehensiveInputs) : ℚ :=
  (compBuyTarget currentPrice ind - currentPrice) /
    (currentPrice - calculateATRStopLoss currentPrice ind.atr 2 .long)

/-- Decision core of `generateComprehensiveSignal` (`comprehensive.ts`):
BUY above +40 with ATR-based stop/target, SELL below −40 with ATR-based
stop/target (not the fixed-percentage fallback), HOLD otherwise.  In the
source this core is preceded by a hard guard that throws on fewer than 52
candles. -/
def generateComprehensiveSignalCore (ind : ComprehensiveInputs) (currentPrice : ℚ) :
    TradingSignalRec :=
  if 40 < comprehensiveScore ind then
    ⟨.BUY, round2 |comprehensiveScore ind|, currentPrice,
      some (compBuyTarget currentPrice ind),
      some (calculateATRStopLoss currentPrice ind.atr 2 .long),
      if compBuyRR currentPrice ind ≠ 0 then some (round2 (compBuyRR currentPrice ind))
      else none⟩
  else if comprehensiveScore ind < -40 then
    ⟨.SELL, round2 |comprehensiveScore ind|, currentPrice,
      some (currentPrice - ind.atr * (5 / 2)),
      some (calculateATRStopLoss currentPrice ind.atr 2 .short), none⟩
  else
    ⟨.HOLD, round2 |comprehensiveScore ind|, currentPrice, none, none, none⟩

/-- A uniformly bearish indicator snapshot with `ATR = 20`, MEDIUM risk. -/
def bearishInputs : ComprehensiveInputs :=
  ⟨75, -1, 9 / 10, 30, .SELL, 20, .SELL, .below, .SELL, .bearish, .SELL, .SELL, .MEDIUM⟩

/-- A uniformly bullish indicator snapshot with `ATR = 20`, MEDIUM risk. -/
def bullishInputs : ComprehensiveInputs :=
  ⟨25, 1, 1 / 10, 30, .BUY, 20, .BUY, .above, .BUY, .bullish, .BUY, .BUY, .MEDIUM⟩

theorem comprehensiveScore_bearish : comprehensiveScore bearishInputs = -95 := by
  simp [comprehensiveScore, bearishInputs]
  norm_num

theorem comprehensiveScore_bullish : comprehensiveScore bullishInputs = 95 := by
  simp [comprehensiveScore, bullishInputs]
  norm_num

theorem bearish_sell_type :
    (generateComprehensiveSignalCore bearishInputs 1000).type = .SELL := by
  simp [generateComprehensiveSignalCore, comprehensiveScore_bearish]
  norm_num

theorem bullish_buy_type :
    (generateComprehensiveSignalCore bullishInputs 1000).type = .BUY := by
  simp [generateComprehensiveSignalCore, comprehensiveScore_bullish]
  norm_num

/-- C3 counterexample: the comprehensive signal generator produces a SELL
signal whose target price is `entry − 2.5·ATR = 950`, not the claimed fixed
fallback `entry · 0.94 = 940`. -/
theorem C3_counterexample :
    (generateComprehensiveSignalCore bearishInputs 1000).type = .SELL ∧
    (generateComprehensiveSignalCore bearishInputs 1000).targetPrice = some 950 ∧
    (generateComprehensiveSignalCore bearishInputs 1000).targetPrice ≠
      some ((1000 : ℚ) * (94 / 100)) := by
  have hatr : bearishInputs.atr = 20 := rfl
  refine ⟨bearish_sell_type, ?_, ?_⟩ <;>
    simp [generateComprehensiveSignalCore, comprehensiveScore_bearish, hatr] <;>
    norm_num

/-- C3 (amended): a SELL signal from the basic generator (`generateSignal`,
`signals.ts`) has the fixed-percentage targets `entry·0.94` / `entry·1.04`;
a SELL signal from the comprehensive generator (`comprehensive.ts`) instead
has the ATR-based targets `entry − 2.5·ATR` / `round2(entry + 2·ATR)`. -/
theorem C3_sell_targets (prices volumes : List ℚ) (rsiSig macdSig volSig : IndicatorVote)
    (riskLevel : RiskLevel) (ind : ComprehensiveInputs) (p : ℚ)
    (hb : (generateSignalCore prices volumes rsiSig macdSig volSig riskLevel).type = .SELL)
    (hc : (generateComprehensiveSignalCore ind p).type = .SELL) :
    (generateSignalCore prices volumes rsiSig macdSig volSig riskLevel).targetPrice =
      some (prices.getLastD 0 * (94 / 100)) ∧
    (generateSignalCore prices volumes rsiSig macdSig volSig riskLevel).stopLoss =
      some (prices.getLastD 0 * (104 / 100)) ∧
    (generateComprehensiveSignalCore ind p).targetPrice = some (p - ind.atr * (5 / 2)) ∧
    (generateComprehensiveSignalCore ind p).stopLoss = some (round2 (p + ind.atr * 2)) := by
  by_cases hg : prices.length < 30 ∨ volumes.length < 30 <;>
  by_cases h1 : 50 < signalConfidenceScore rsiSig macdSig volSig riskLevel <;>
  by_cases h2 : signalConfidenceScore rsiSig macdSig volSig riskLevel < -50 <;>
  by_cases c1 : 40 < comprehensiveScore ind <;>
  by_cases c2 : comprehensiveScore ind < -40 <;>
  simp [generateSignalCore, generateComprehensiveSignalCore, calculateATRStopLoss,
    hg, h1, h2, c1, c2] at hb hc ⊢

/-- C5: every BUY signal of the comprehensive generator has
`stopLoss = round2(entry − 2·ATR)`, `targetPrice = entry + (3 if LOW else 2.5)·ATR`,
and `riskReward = (target − entry)/(entry − stop)` (rounded to 2 decimals,
omitted when zero); concretely `entry = 1000`, `ATR = 20`, MEDIUM risk gives
`stopLoss = 960`, `targetPrice = 1050`, `riskReward = 1.25`. -/
theorem C5_buy_targets (ind : ComprehensiveInputs) (p : ℚ)
    (hb : (generateComprehensiveSignalCore ind p).type = .BUY) :
    ((generateComprehensiveSignalCore ind p).stopLoss = some (round2 (p - ind.atr * 2)) ∧
      (generateComprehensiveSignalCore ind p).targetPrice =
        some (p + ind.atr * (if ind.riskLevel = .LOW then 3 else 5 / 2)) ∧
      (generateComprehensiveSignalCore ind p).riskReward =
        (if compBuyRR p ind ≠ 0 then some (round2 (compBuyRR p ind)) else none)) ∧
    ((generateComprehensiveSignalCore bullishInputs 1000).stopLoss = some 960 ∧
      (generateComprehensiveSignalCore bullishInputs 1000).targetPrice = some 1050 ∧
      (generateComprehensiveSignalCore bullishInputs 1000).riskReward = some (5 / 4)) := by
  constructor
  · by_cases c1 : 40 < comprehensiveScore ind <;>
    by_cases c2 : comprehensiveScore ind < -40 <;>
    simp [generateComprehensiveSignalCore, calculateATRStopLoss, compBuyTarget, c1, c2]
      at hb ⊢
  · have hatr : bullishInputs.atr = 20 := rfl
    have hrl : bullishInputs.riskLevel = RiskLevel.MEDIUM := rfl
    simp [generateComprehensiveSignalCore, comprehensiveScore_bullish, hatr, hrl,
      calculateATRStopLoss, compBuyTarget, compBuyRR, round2, round_eq]
    norm_num [Int.floor_eq_iff]

/-- Witness for C5: the theorem applied to the bullish snapshot. -/
theorem C5_buy_targets_witness :
    (((generateComprehensiveSignalCore bullishInputs 1000).stopLoss =
        some (round2 (1000 - bullishInputs.atr * 2)) ∧
      (generateComprehensiveSignalCore bullishInputs 1000).targetPrice =
        some (1000 + bullishInputs.atr *
          (if bullishInputs.riskLevel = .LOW then 3 else 5 / 2)) ∧
      (generateComprehensiveSignalCore bullishInputs 1000).riskReward =
        (if compBuyRR 1000 bullishInputs ≠ 0 then some (round2 (compBuyRR 1000 bullishInputs))
         else none)) ∧
    ((generateComprehensiveSignalCore bullishInputs 1000).stopLoss = some 960 ∧
      (generateComprehensiveSignalCore bullishInputs 1000).targetPrice = some 1050 ∧
      (generateComprehensiveSignalCore bullishInputs 1000).riskReward = some (5 / 4))) :=
  C5_buy_targets bullishInputs 1000 bullish_buy_type

/-- Witness for C3's amended statement: concrete SELL signals from both
generators. -/
theorem C3_sell_targets_witness :
    (generateSignalCore (List.replicate 30 100) (List.replicate 30 100)
      ⟨.SELL, 100⟩ ⟨.SELL, 100⟩ ⟨.SELL, 100⟩ .MEDIUM).targetPrice =
      some ((List.replicate 30 (100 : ℚ)).getLastD 0 * (94 / 100)) ∧
    (generateSignalCore (List.replicate 30 100) (List.replicate 30 100)
      ⟨.SELL, 100⟩ ⟨.SELL, 100⟩ ⟨.SELL, 100⟩ .MEDIUM).stopLoss =
      some ((List.replicate 30 (100 : ℚ)).getLastD 0 * (104 / 100)) ∧
    (generateComprehensiveSignalCore bearishInputs 1000).targetPrice =
      some (1000 - bearishInputs.atr * (5 / 2)) ∧
    (generateComprehensiveSignalCore bearishInputs 1000).stopLoss =
      some (round2 (1000 + bearishInputs.atr * 2)) := by
  have hs : signalConfidenceScore ⟨.SELL, 100⟩ ⟨.SELL, 100⟩ ⟨.SELL, 100⟩ .MEDIUM = -90 := by
    simp [signalConfidenceScore]
    norm_num
  have hb : (generateSignalCore (List.replicate 30 100) (List.replicate 30 100)
      ⟨.SELL, 100⟩ ⟨.SELL, 100⟩ ⟨.SELL, 100⟩ .MEDIUM).type = .SELL := by
    simp [generateSignalCore, hs]
    norm_num
  exact C3_sell_targets (List.replicate 30 100) (List.replicate 30 100)
    ⟨.SELL, 100⟩ ⟨.SELL, 100⟩ ⟨.SELL, 100⟩ .MEDIUM bearishInputs 1000 hb bearish_sell_type

/-! ## Paper-trading portfolio (`PaperTradingPortfolio`)

State machine of the virtual account: cash, positions (a `Map` keyed by
symbol, modelled as an insertion-ordered association list), open orders and
trade history.  Dates and reporting helpers (`getState`,
`calculatePerformance`) are omitted; order ids come from a counter (the
source draws random ids — only distinctness is observable). -/

/-- Order side. -/
inductive OrderSide
  | buy
  | sell
deriving DecidableEq

/-- Order type. -/
inductive OrderType
  | market
  | limit
  | stop
deriving DecidableEq

/-- Order status. -/
inductive OrderStatus
  | pending
  | filled
  | cancelled
deriving DecidableEq

/-- `PortfolioConfig`. -/
structure PortfolioConfig where
  initialCash : ℚ
  commission : ℚ
  slippage : ℚ
  margin : Bool
  marginRatio : ℚ
deriving DecidableEq

/-- A per-symbol `Position` (open date omitted). -/
structure Position where
  symbol : String
  shares : ℚ
  avgPrice : ℚ
  currentPrice : ℚ
  marketValue : ℚ
  costBasis : ℚ
  unrealizedPnL : ℚ
  unrealizedPnLPercent : ℚ
  side : TradeDirection
deriving DecidableEq

/-- An `Order` (timestamps omitted). -/
structure Order where
  id : ℕ
  symbol : String
  side : OrderSide
  type : OrderType
  shares : ℚ
  price : Option ℚ
  status : OrderStatus
  filledPrice : Option ℚ
  filledShares : Option ℚ
  commission : Option ℚ
deriving DecidableEq

/-- A `Trade` history entry (timestamp omitted). -/
structure Trade where
  id : ℕ
  symbol : String
  side : OrderSide
  shares : ℚ
  price : ℚ
  commission : ℚ
  total : ℚ
deriving DecidableEq

/-- The mutable state of one `PaperTradingPortfolio` instance. -/
structure Portfolio where
  config : PortfolioConfig
  cash : ℚ
  positions : List Position
  openOrders : List Order
  tradeHistory : List Trade
  nextOrderId : ℕ
deriving DecidableEq

/-- A fresh portfolio (`constructor`). -/
def newPortfolio (config : PortfolioConfig) : Portfolio :=
  ⟨config, config.initialCash, [], [], [], 0⟩

/-- `this.positions.get(symbol)`. -/
def findPosition (positions : List Position) (symbol : String) : Option Position :=
  positions.find? (fun pos => pos.symbol = symbol)

/-- `this.positions.set(pos.symbol, pos)`: replace in place, else append. -/
def setPosition (positions : List Position) (p : Position) : List Position :=
  if positions.any (fun q => q.symbol = p.symbol) then
    positions.map (fun q => if q.symbol = p.symbol then p else q)
  else positions ++ [p]

/-- `this.positions.delete(symbol)`. -/
def deletePosition (positions : List Position) (symbol : String) : List Position :=
  positions.filter (fun q => ¬q.symbol = symbol)

/-- `executeOrder` (internal): apply a filled order to cash, positions and
trade history.  The leading guard mirrors the JS truthiness test
`if (!order.filledPrice || !order.filledShares) return`. -/
def executeOrder (p : Portfolio) (order : Order) : Portfolio :=
  match order.filledPrice, order.filledShares with
  | some fp, some fs =>
    if fp = 0 ∨ fs = 0 then p
    else
      let total := fs * fp
      let comm := order.commission.getD 0
      let trade : Trade := ⟨order.id, order.symbol, order.side, fs, fp, comm, total⟩
      if order.side = .buy then
        let positions' :=
          match findPosition p.positions order.symbol with
          | some ex =>
              setPosition p.positions
                { ex with
                  shares := ex.shares + fs
                  avgPrice := (ex.costBasis + total) / (ex.shares + fs)
                  costBasis := ex.costBasis + total
                  currentPrice := fp
                  marketValue := (ex.shares + fs) * fp
                  unrealizedPnL := (ex.shares + fs) * fp - (ex.costBasis + total)
                  unrealizedPnLPercent :=
                    ((ex.shares + fs) * fp - (ex.costBasis + total)) /
                      (ex.costBasis + total) * 100 }
          | none =>
              p.positions ++ [⟨order.symbol, fs, fp, fp, total, total, 0, 0, .long⟩]
        { p with
          cash := p.cash - (total + comm)
          positions := positions'
          tradeHistory := p.tradeHistory ++ [trade] }
      else
        match findPosition p.positions order.symbol with
        | none => p
        | some pos =>
            let newShares := pos.shares - fs
            let newCostBasis := newShares * pos.avgPrice
            let positions' :=
              if newShares = 0 then deletePosition p.positions order.symbol
              else
                setPosition p.positions
                  { pos with
                    shares := newShares
                    costBasis := newCostBasis
                    marketValue := newShares * fp
                    unrealizedPnL := newShares * fp - newCostBasis
                    unrealizedPnLPercent :=
                      if newCostBasis = 0 then 0
                      else (newShares * fp - newCostBasis) / newCostBasis * 100 }
            { p with
              cash := p.cash + (total - comm)
              positions := positions'
              tradeHistory := p.tradeHistory ++ [trade] }
  | _, _ => p

/-- Slippage-adjusted market fill price (`1 + slippage` on buy,
`1 - slippage` on sell). -/
def marketFillPrice (p : Portfolio) (side : OrderSide) (currentPrice : ℚ) : ℚ :=
  currentPrice * (if side = .buy then 1 + p.config.slippage else 1 - p.config.slippage)

/-- The immediately-filled market order record built by `placeMarketOrder`. -/
def mkMarketOrder (p : Portfolio) (symbol : String) (side : OrderSide)
    (shares currentPrice : ℚ) : Order :=
  ⟨p.nextOrderId, symbol, side, .market, shares, none, .filled,
    some (marketFillPrice p side currentPrice), some shares,
    some (shares * marketFillPrice p side currentPrice * p.config.commission)⟩

/-- `placeMarketOrder`: validate, then fill immediately via `executeOrder`.
A thrown `Error` is modelled as `.error`; no state accompanies an error, so
the portfolio is untouched on failure exactly as in the source. -/
def placeMarketOrder (p : Portfolio) (symbol : String) (side : OrderSide)
    (shares currentPrice : ℚ) : Except String (Portfolio × Order) :=
  if side = .buy then
    if p.cash < shares * marketFillPrice p side currentPrice +
        shares * marketFillPrice p side currentPrice * p.config.commission then
      .error "Insufficient cash"
    else
      .ok (executeOrder { p with nextOrderId := p.nextOrderId + 1 }
            (mkMarketOrder p symbol side shares currentPrice),
          mkMarketOrder p symbol side shares currentPrice)
  else
    match findPosition p.positions symbol with
    | none => .error "Insufficient shares"
    | some pos =>
        if pos.shares < shares then .error "Insufficient shares"
        else
          .ok (executeOrder { p with nextOrderId := p.nextOrderId + 1 }
                (mkMarketOrder p symbol side shares currentPrice),
              mkMarketOrder p symbol side shares currentPrice)

/-- `placeLimitOrder`: queue a pending limit order. -/
def placeLimitOrder (p : Portfolio) (symbol : String) (side : OrderSide)
    (shares limitPrice : ℚ) : Portfolio × Order :=
  let order : Order :=
    ⟨p.nextOrderId, symbol, side, .limit, shares, some limitPrice, .pending, none, none, none⟩
  ({ p with openOrders := p.openOrders ++ [order], nextOrderId := p.nextOrderId + 1 }, order)

/-- `placeStopOrder`: queue a pending stop order. -/
def placeStopOrder (p : Portfolio) (symbol : String) (side : OrderSide)
    (shares stopPrice : ℚ) : Portfolio × Order :=
  let order : Order :=
    ⟨p.nextOrderId, symbol, side, .stop, shares, some stopPrice, .pending, none, none, none⟩
  ({ p with openOrders := p.openOrders ++ [order], nextOrderId := p.nextOrderId + 1 }, order)

/-- The trigger condition of `checkPendingOrders`: limit buy at or below the
limit, limit sell at or above; stop buy at or above the stop, stop sell at
or below. -/
def fillTriggered (order : Order) (currentPrice : ℚ) : Prop :=
  (order.type = .limit ∧ order.side = .buy ∧ currentPrice ≤ order.price.getD 0) ∨
  (order.type = .limit ∧ order.side = .sell ∧ order.price.getD 0 ≤ currentPrice) ∨
  (order.type = .stop ∧ order.side = .buy ∧ order.price.getD 0 ≤ currentPrice) ∨
  (order.type = .stop ∧ order.side = .sell ∧ currentPrice ≤ order.price.getD 0)

instance (order : Order) (currentPrice : ℚ) : Decidable (fillTriggered order currentPrice) := by
  unfold fillTriggered
  infer_instance

/-- Whether `checkPendingOrders` fills an order against the supplied prices
(including the truthiness guard `if (!currentPrice || !order.price) return`). -/
def orderFills (prices : String → Option ℚ) (order : Order) : Bool :=
  match prices order.symbol with
  | none => false
  | some cp =>
      if cp = 0 then false
      else
        match order.price with
        | none => false
        | some pr => if pr = 0 then false else decide (fillTriggered order cp)

/-- Mutate an order into its filled form (`checkPendingOrders` fill step):
fill at the current price with commission `shares·price·rate` — note there is
no cash or share validation here. -/
def fillOrder (commissionRate currentPrice : ℚ) (order : Order) : Order :=
  { order with
    status := .filled
    filledPrice := some currentPrice
    filledShares := some order.shares
    commission := some (order.shares * currentPrice * commissionRate) }

/-- `checkPendingOrders`: fill every triggered pending order via
`executeOrder` and drop it from the open list. -/
def checkPendingOrders (p : Portfolio) (prices : String → Option ℚ) : Portfolio :=
  let ordersToFill :=
    (p.openOrders.filter (orderFills prices)).map
      (fun o => fillOrder p.config.commission ((prices o.symbol).getD 0) o)
  let p' := ordersToFill.foldl executeOrder p
  { p' with
    openOrders := p'.openOrders.filter (fun o => ¬ordersToFill.any (fun f => f.id = o.id)) }

/-- `updatePositions`: refresh mark-to-market fields of every position whose
symbol has a price, then fill triggered pending orders. -/
def updatePositions (p : Portfolio) (prices : String → Option ℚ) : Portfolio :=
  let positions' := p.positions.map (fun pos =>
    match prices pos.symbol with
    | some pr =>
        { pos with
          currentPrice := pr
          marketValue := pos.shares * pr
          unrealizedPnL := pos.shares * pr - pos.costBasis
          unrealizedPnLPercent := (pos.shares * pr - pos.costBasis) / pos.costBasis * 100 }
    | none => pos)
  checkPendingOrders { p with positions := positions' } prices

/-- The portfolio as the caller sees it after `placeMarketOrder`: the new
state on success, the original state when the call throws. -/
def placeMarketOrderState (p : Portfolio) (symbol : String) (side : OrderSide)
    (shares currentPrice : ℚ) : Portfolio :=
  match placeMarketOrder p symbol side shares currentPrice with
  | .ok (p', _) => p'
  | .error _ => p

/-- C1: starting from non-negative cash, `placeMarketOrder` never drives cash
negative (for non-negative shares/price and fractional commission/slippage
rates), and a buy whose slippage-adjusted cost plus commission exceeds the
available cash fails with the insufficient-cash error before any mutation. -/
theorem C1_cash_nonneg (p : Portfolio) (symbol : String) (side : OrderSide)
    (shares currentPrice : ℚ)
    (hcash : 0 ≤ p.cash) (hsh : 0 ≤ shares) (hpr : 0 ≤ currentPrice)
    (hc1 : p.config.commission ≤ 1) (hs1 : p.config.slippage ≤ 1) :
    (∀ p' o, placeMarketOrder p symbol side shares currentPrice = .ok (p', o) → 0 ≤ p'.cash) ∧
    (side = .buy →
      p.cash < shares * marketFillPrice p side currentPrice +
        shares * marketFillPrice p side currentPrice * p.config.commission →
      placeMarketOrder p symbol side shares currentPrice = .error "Insufficient cash") := by
  constructor
  · intro p' o hok
    cases side with
    | buy =>
        unfold placeMarketOrder at hok
        rw [if_pos rfl] at hok
        by_cases hval : p.cash < shares * marketFillPrice p .buy currentPrice +
            shares * marketFillPrice p .buy currentPrice * p.config.commission
        · rw [if_pos hval] at hok
          simp at hok
        · rw [if_neg hval] at hok
          simp only [Except.ok.injEq, Prod.mk.injEq] at hok
          obtain ⟨hp', -⟩ := hok
          subst hp'
          unfold executeOrder mkMarketOrder
          simp only
          by_cases hz : marketFillPrice p .buy currentPrice = 0 ∨ shares = 0
          · rw [if_pos hz]
            exact hcash
          · rw [if_neg hz]
            push_neg at hval
            simp
            linarith [hval]
    | sell =>
        unfold placeMarketOrder at hok
        rw [if_neg (by simp)] at hok
        cases hfind : findPosition p.positions symbol with
        | none => rw [hfind] at hok; simp at hok
        | some pos =>
            rw [hfind] at hok
            dsimp only at hok
            by_cases hks : pos.shares < shares
            · rw [if_pos hks] at hok; simp at hok
            · rw [if_neg hks] at hok
              simp only [Except.ok.injEq, Prod.mk.injEq] at hok
              obtain ⟨hp', -⟩ := hok
              subst hp'
              have hfp : 0 ≤ marketFillPrice p .sell currentPrice := by
                unfold marketFillPrice
                rw [if_neg (by simp)]
                nlinarith
              unfold executeOrder mkMarketOrder
              simp only
              by_cases hz : marketFillPrice p .sell currentPrice = 0 ∨ shares = 0
              · rw [if_pos hz]
                exact hcash
              · rw [if_neg hz]
                rw [if_neg (by simp)]
                have hfind' : findPosition p.positions symbol = some pos := hfind
                simp only [hfind']
                simp only [Option.getD_some]
                have htot : 0 ≤ shares * marketFillPrice p .sell currentPrice :=
                  mul_nonneg hsh hfp
                nlinarith
  · intro hb hval
    subst hb
    unfold placeMarketOrder
    rw [if_pos rfl, if_pos hval]

/-- Witness for C1: the spec's scenario — a fresh 100000-cash portfolio with
0.1% commission and slippage buying 10 shares at 100 keeps cash non-negative. -/
theorem C1_cash_nonneg_witness :
    0 ≤ (executeOrder
      { newPortfolio ⟨100000, 1 / 1000, 1 / 1000, false, 1⟩ with
        nextOrderId := (newPortfolio ⟨100000, 1 / 1000, 1 / 1000, false, 1⟩).nextOrderId + 1 }
      (mkMarketOrder (newPortfolio ⟨100000, 1 / 1000, 1 / 1000, false, 1⟩)
        "SYM" .buy 10 100)).cash := by
  have hnv : ¬((newPortfolio ⟨100000, 1 / 1000, 1 / 1000, false, 1⟩).cash <
      10 * marketFillPrice (newPortfolio ⟨100000, 1 / 1000, 1 / 1000, false, 1⟩) .buy 100 +
      10 * marketFillPrice (newPortfolio ⟨100000, 1 / 1000, 1 / 1000, false, 1⟩) .buy 100 *
        (newPortfolio ⟨100000, 1 / 1000, 1 / 1000, false, 1⟩).config.commission) := by
    norm_num [newPortfolio, marketFillPrice]
  have hok : placeMarketOrder (newPortfolio ⟨100000, 1 / 1000, 1 / 1000, false, 1⟩)
      "SYM" .buy 10 100 =
      .ok (executeOrder
        { newPortfolio ⟨100000, 1 / 1000, 1 / 1000, false, 1⟩ with
          nextOrderId :=
            (newPortfolio ⟨100000, 1 / 1000, 1 / 1000, false, 1⟩).nextOrderId + 1 }
        (mkMarketOrder (newPortfolio ⟨100000, 1 / 1000, 1 / 1000, false, 1⟩) "SYM" .buy 10 100),
        mkMarketOrder (newPortfolio ⟨100000, 1 / 1000, 1 / 1000, false, 1⟩) "SYM" .buy 10 100) := by
    unfold placeMarketOrder
    rw [if_pos rfl, if_neg hnv]
  exact (C1_cash_nonneg (newPortfolio ⟨100000, 1 / 1000, 1 / 1000, false, 1⟩) "SYM" .buy 10 100
    (by norm_num [newPortfolio]) (by norm_num) (by norm_num)
    (by norm_num [newPortfolio]) (by norm_num [newPortfolio])).1 _ _ hok

/-- C2: `placeMarketOrder` fails with the insufficient-cash error on a buy
exactly when `shares·fillPrice + commission > cash`, and with the
insufficient-shares error on a sell exactly when there is no position or it
holds fewer shares than requested; on any error the caller's portfolio is
unchanged. -/
theorem C2_validation (p : Portfolio) (symbol : String) (shares currentPrice : ℚ) :
    ((placeMarketOrder p symbol .buy shares currentPrice = .error "Insufficient cash") ↔
      p.cash < shares * marketFillPrice p .buy currentPrice +
        shares * marketFillPrice p .buy currentPrice * p.config.commission) ∧
    ((placeMarketOrder p symbol .sell shares currentPrice = .error "Insufficient shares") ↔
      (findPosition p.positions symbol = none ∨
        ∃ pos, findPosition p.positions symbol = some pos ∧ pos.shares < shares)) ∧
    (∀ side msg, placeMarketOrder p symbol side shares currentPrice = .error msg →
      placeMarketOrderState p symbol side shares currentPrice = p) := by
  refine ⟨?_, ?_, ?_⟩
  · by_cases hval : p.cash < shares * marketFillPrice p .buy currentPrice +
        shares * marketFillPrice p .buy currentPrice * p.config.commission <;>
      simp [placeMarketOrder, hval]
  · cases hfind : findPosition p.positions symbol with
    | none => simp [placeMarketOrder, hfind]
    | some pos =>
        by_cases hks : pos.shares < shares <;>
          simp [placeMarketOrder, hfind, hks]
  · intro side msg herr
    unfold placeMarketOrderState
    rw [herr]

/-- Witness for C2: a fresh zero-cash portfolio rejects a 10-share buy at 100
with the insufficient-cash error. -/
theorem C2_validation_witness :
    placeMarketOrder (newPortfolio ⟨0, 0, 0, false, 1⟩) "SYM" .buy 10 100 =
      .error "Insufficient cash" :=
  (C2_validation (newPortfolio ⟨0, 0, 0, false, 1⟩) "SYM" 10 100).1.mpr
    (by norm_num [newPortfolio, marketFillPrice])

/-- C10: pending orders filled by `updatePositions` bypass the cash check of
`placeMarketOrder`: queue a limit buy of 100 shares at limit 50 on a
portfolio with only 1000 cash (no commission/slippage), then update with
price 40 — the order triggers, the full 4000 cost is deducted, and cash ends
at −3000 < 0. -/
theorem C10_pending_fill_negative_cash :
    (updatePositions
      (placeLimitOrder (newPortfolio ⟨1000, 0, 0, false, 1⟩) "A" .buy 100 50).1
      (fun s => if s = "A" then some 40 else none)).cash = -3000 ∧
    (updatePositions
      (placeLimitOrder (newPortfolio ⟨1000, 0, 0, false, 1⟩) "A" .buy 100 50).1
      (fun s => if s = "A" then some 40 else none)).cash < 0 := by
  have h : (updatePositions
      (placeLimitOrder (newPortfolio ⟨1000, 0, 0, false, 1⟩) "A" .buy 100 50).1
      (fun s => if s = "A" then some 40 else none)).cash = -3000 := by
    norm_num [updatePositions, checkPendingOrders, placeLimitOrder, newPortfolio, executeOrder,
      orderFills, fillTriggered, fillOrder, findPosition, setPosition, deletePosition,
      decide_eq_true_eq, List.filter, List.any, List.foldl, List.map]
  refine ⟨h, by rw [h]; norm_num⟩

/-! ## Backtest engine (`BacktestEngine`, upstox module)

Replay of a sorted candle series against a sorted signal stream.  Dates are
modelled by their numeric timestamps; `Array.sort` by date is modelled with
`List.mergeSort` (only order and length are observable). -/

/-- Sizing strategy of the backtest config. -/
inductive SizingMethod
  | fixed
  | kelly
  | atr
  | percent
deriving DecidableEq

/-- Exit reason recorded on a backtest trade. -/
inductive ExitReason
  | target
  | stop
  | signal
  | time
deriving DecidableEq

/-- `BacktestConfig`. -/
structure BacktestConfig where
  initialCapital : ℚ
  commission : ℚ
  slippage : ℚ
  positionSizing : SizingMethod
  positionSizeValue : ℚ
  maxPositions : ℕ
  riskPerTrade : ℚ
deriving DecidableEq

/-- An OHLCV candle (`open` is spelt `openPrice`: `open` is reserved). -/
structure Candle where
  date : ℤ
  openPrice : ℚ
  high : ℚ
  low : ℚ
  close : ℚ
  volume : ℚ
deriving DecidableEq

/-- Backtest signal type (`'BUY' | 'SELL' | 'EXIT'`). -/
inductive BTSignalType
  | BUY
  | SELL
  | EXIT
deriving DecidableEq

/-- A backtest input signal. -/
structure BTSignal where
  date : ℤ
  type : BTSignalType
  price : ℚ
  stopLoss : Option ℚ
  target : Option ℚ
  confidence : Option ℚ
deriving DecidableEq

/-- An open backtest position (`positions` map value). -/
structure BTPosition where
  entryDate : ℤ
  entryPrice : ℚ
  shares : ℤ
  stopLoss : Option ℚ
  target : Option ℚ
  side : TradeDirection
deriving DecidableEq

/-- A completed backtest trade. -/
structure BTTrade where
  entryDate : ℤ
  entryPrice : ℚ
  exitDate : ℤ
  exitPrice : ℚ
  shares : ℤ
  side : TradeDirection
  pnl : ℚ
  pnlPercent : ℚ
  commission : ℚ
  holdingPeriod : ℤ
  exitReason : ExitReason
deriving DecidableEq

/-- The engine's mutable state (`capital`, `positions` keyed by entry date,
`trades`, `equity`, `dates`). -/
structure BTState where
  config : BacktestConfig
  capital : ℚ
  positions : List (ℤ × BTPosition)
  trades : List BTTrade
  equity : List ℚ
  dates : List ℤ
deriving DecidableEq

/-- `this.positions.get(key)`. -/
def btFindPosition (positions : List (ℤ × BTPosition)) (key : ℤ) : Option BTPosition :=
  (positions.find? (fun kv => kv.1 = key)).map (·.2)

/-- `this.positions.set(key, pos)`. -/
def btSetPosition (positions : List (ℤ × BTPosition)) (key : ℤ) (pos : BTPosition) :
    List (ℤ × BTPosition) :=
  if positions.any (fun kv => kv.1 = key) then
    positions.map (fun kv => if kv.1 = key then (key, pos) else kv)
  else positions ++ [(key, pos)]

/-- `calculateWinRate`: fraction of profitable trades, 0.5 with no history. -/
def calculateWinRate (trades : List BTTrade) : ℚ :=
  if trades = [] then 1 / 2
  else ((trades.filter (fun t => 0 < t.pnl)).length : ℚ) / (trades.length : ℚ)

/-- `calculateAvgWinLoss`: average win over average loss, 0 when either side
is empty or the average loss is 0. -/
def calculateAvgWinLoss (trades : List BTTrade) : ℚ :=
  let wins := trades.filter (fun t => 0 < t.pnl)
  let losses := trades.filter (fun t => t.pnl < 0)
  if wins = [] ∨ losses = [] then 0
  else
    let avgWin := (wins.map (·.pnl)).sum / (wins.length : ℚ)
    let avgLoss := |(losses.map (·.pnl)).sum / (losses.length : ℚ)|
    if avgLoss = 0 then 0 else avgWin / avgLoss

/-- `calculatePositionSize`: fixed / percent / ATR-risk / simplified-Kelly
share count (`Math.floor` division). -/
def calculatePositionSize (s : BTState) (price : ℚ) (stopLoss : Option ℚ) : ℤ :=
  match s.config.positionSizing with
  | .fixed => ⌊s.config.positionSizeValue / price⌋
  | .percent => ⌊s.capital * (s.config.positionSizeValue / 100) / price⌋
  | .atr =>
      if truthyQ stopLoss = false then 0
      else ⌊s.capital * (s.config.riskPerTrade / 100) / |price - stopLoss.getD 0|⌋
  | .kelly =>
      if calculateAvgWinLoss s.trades = 0 then 0
      else
        ⌊s.capital *
          (max 0 (min ((calculateWinRate s.trades / calculateAvgWinLoss s.trades -
            (1 - calculateWinRate s.trades) / 1) * 100) 25) / 100) / price⌋

/-- `closePosition`: realize a position at a (pre-slippage) exit price,
record the trade; the `positions` entry itself is removed by the caller. -/
def btClosePosition (s : BTState) (key : ℤ) (exitPrice : ℚ) (exitDate : ℤ)
    (exitReason : ExitReason) : BTState :=
  match btFindPosition s.positions key with
  | none => s
  | some position =>
      let actualExitPrice :=
        if position.side = .long then exitPrice * (1 - s.config.slippage)
        else exitPrice * (1 + s.config.slippage)
      let proceeds := (position.shares : ℚ) * actualExitPrice
      let commission := proceeds * s.config.commission
      let cost := (position.shares : ℚ) * position.entryPrice
      let pnl :=
        if position.side = .long then proceeds - cost - commission * 2
        else cost - proceeds - commission * 2
      { s with
        capital :=
          if position.side = .long then s.capital + (proceeds - commission)
          else s.capital - (proceeds + commission)
        trades := s.trades ++
          [⟨position.entryDate, position.entryPrice, exitDate, actualExitPrice,
            position.shares, position.side, pnl,
            pnl / ((position.shares : ℚ) * position.entryPrice) * 100,
            commission * 2, Int.fdiv (exitDate - position.entryDate) 86400000, exitReason⟩] }

/-- The stop/target trigger test of `checkExits` (stop checked before target;
the JS truthiness guard makes a zero stop/target inert). -/
def exitHit (candle : Candle) (position : BTPosition) : Option (ℚ × ExitReason) :=
  if position.side = .long then
    if truthyQ position.stopLoss ∧ candle.low ≤ position.stopLoss.getD 0 then
      some (position.stopLoss.getD 0, .stop)
    else if truthyQ position.target ∧ position.target.getD 0 ≤ candle.high then
      some (position.target.getD 0, .target)
    else none
  else
    if truthyQ position.stopLoss ∧ position.stopLoss.getD 0 ≤ candle.high then
      some (position.stopLoss.getD 0, .stop)
    else if truthyQ position.target ∧ candle.low ≤ position.target.getD 0 then
      some (position.target.getD 0, .target)
    else none

/-- `checkExits`: close every breached position, then delete them. -/
def checkExits (s : BTState) (candle : Candle) : BTState :=
  let s' := s.positions.foldl (fun st kv =>
    match exitHit candle kv.2 with
    | some pr => btClosePosition st kv.1 pr.1 candle.date pr.2
    | none => st) s
  { s' with positions := s'.positions.filter (fun kv => exitHit candle kv.2 = none) }

/-- `enterLong`: position-count gate, sizing, slippage, capital check. -/
def enterLong (s : BTState) (signal : BTSignal) (candle : Candle) : BTState :=
  if s.config.maxPositions ≤ s.positions.length then s
  else
    let shares := calculatePositionSize s signal.price signal.stopLoss
    if shares = 0 then s
    else
      let entryPrice := signal.price * (1 + s.config.slippage)
      let positionCost := (shares : ℚ) * entryPrice
      let commission := positionCost * s.config.commission
      if s.capital < positionCost + commission then s
      else
        { s with
          capital := s.capital - (positionCost + commission)
          positions := btSetPosition s.positions candle.date
            ⟨candle.date, entryPrice, shares, signal.stopLoss, signal.target, .long⟩ }

/-- `enterShort`: symmetric to `enterLong` with reversed slippage and
credited proceeds. -/
def enterShort (s : BTState) (signal : BTSignal) (candle : Candle) : BTState :=
  if s.config.maxPositions ≤ s.positions.length then s
  else
    let shares := calculatePositionSize s signal.price signal.stopLoss
    if shares = 0 then s
    else
      let entryPrice := signal.price * (1 - s.config.slippage)
      let positionCost := (shares : ℚ) * entryPrice
      let commission := positionCost * s.config.commission
      if s.capital < positionCost + commission then s
      else
        { s with
          capital := s.capital + (positionCost - commission)
          positions := btSetPosition s.positions candle.date
            ⟨candle.date, entryPrice, shares, signal.stopLoss, signal.target, .short⟩ }

/-- `exitAllPositions`: close everything at the candle close. -/
def exitAllPositions (s : BTState) (candle : Candle) (reason : ExitReason) : BTState :=
  let s' := s.positions.foldl
    (fun st kv => btClosePosition st kv.1 candle.close candle.date reason) s
  { s' with positions := [] }

/-- `processSignal`: BUY → long, SELL → short, EXIT → close all. -/
def processSignal (s : BTState) (signal : BTSignal) (candle : Candle) : BTState :=
  match signal.type with
  | .BUY => enterLong s signal candle
  | .SELL => enterShort s signal candle
  | .EXIT => exitAllPositions s candle .signal

/-- `calculatePositionValue`: mark-to-market value of open positions (shorts
valued at `2·entry − price`). -/
def calculatePositionValue (s : BTState) (currentPrice : ℚ) : ℚ :=
  s.positions.foldl (fun acc kv =>
    if kv.2.side = .long then acc + (kv.2.shares : ℚ) * currentPrice
    else acc + (kv.2.shares : ℚ) * (2 * kv.2.entryPrice - currentPrice)) 0

/-- The `while` loop applying every signal dated on or before the candle. -/
def processSignalsUpTo (s : BTState) (candle : Candle) :
    List BTSignal → BTState × List BTSignal
  | [] => (s, [])
  | sig :: rest =>
      if sig.date ≤ candle.date then
        processSignalsUpTo (processSignal s sig candle) candle rest
      else (s, sig :: rest)

/-- The candle loop of `run`: push the date, check exits, apply due signals,
append cash + mark-to-market value to the equity curve. -/
def runLoop : BTState → List Candle → List BTSignal → BTState
  | s, [], _ => s
  | s, candle :: rest, sigs =>
      let s1 := { s with dates := s.dates ++ [candle.date] }
      let s2 := checkExits s1 candle
      let sr := processSignalsUpTo s2 candle sigs
      let s4 := { sr.1 with
        equity := sr.1.equity ++ [sr.1.capital + calculatePositionValue sr.1 candle.close] }
      runLoop s4 rest sr.2

/-- `new BacktestEngine(config).run(data, signals)`: equity seeded with the
initial capital, inputs sorted by date. -/
def runBacktest (config : BacktestConfig) (data : List Candle)
    (signals : List BTSignal) : BTState :=
  runLoop ⟨config, config.initialCapital, [], [], [config.initialCapital], []⟩
    (data.mergeSort (fun a b => a.date ≤ b.date))
    (signals.mergeSort (fun a b => a.date ≤ b.date))

theorem btClosePosition_equity (s : BTState) (k : ℤ) (px : ℚ) (d : ℤ) (r : ExitReason) :
    (btClosePosition s k px d r).equity = s.equity := by
  unfold btClosePosition
  cases btFindPosition s.positions k <;> rfl

theorem btClosePosition_dates (s : BTState) (k : ℤ) (px : ℚ) (d : ℤ) (r : ExitReason) :
    (btClosePosition s k px d r).dates = s.dates := by
  unfold btClosePosition
  cases btFindPosition s.positions k <;> rfl

theorem foldl_close_frame {α : Type} (f : BTState → α → BTState)
    (hf : ∀ s a, (f s a).equity = s.equity ∧ (f s a).dates = s.dates) :
    ∀ (l : List α) (s : BTState),
      (l.foldl f s).equity = s.equity ∧ (l.foldl f s).dates = s.dates := by
  intro l
  induction l with
  | nil => intro s; exact ⟨rfl, rfl⟩
  | cons x xs ih =>
      intro s
      simp only [List.foldl_cons]
      exact ⟨(ih (f s x)).1.trans (hf s x).1, (ih (f s x)).2.trans (hf s x).2⟩

theorem checkExits_frame (s : BTState) (c : Candle) :
    (checkExits s c).equity = s.equity ∧ (checkExits s c).dates = s.dates := by
  unfold checkExits
  have h := foldl_close_frame (fun st kv =>
    match exitHit c kv.2 with
    | some pr => btClosePosition st kv.1 pr.1 c.date pr.2
    | none => st)
    (by
      intro st kv
      cases hkv : exitHit c kv.2 with
      | none => simp [hkv]
      | some pr => simp [hkv, btClosePosition_equity, btClosePosition_dates])
    s.positions s
  exact h

theorem enterLong_frame (s : BTState) (sig : BTSignal) (c : Candle) :
    (enterLong s sig c).equity = s.equity ∧ (enterLong s sig c).dates = s.dates := by
  unfold enterLong
  split
  · exact ⟨rfl, rfl⟩
  · dsimp only
    split
    · exact ⟨rfl, rfl⟩
    · split
      · exact ⟨rfl, rfl⟩
      · exact ⟨rfl, rfl⟩

theorem enterShort_frame (s : BTState) (sig : BTSignal) (c : Candle) :
    (enterShort s sig c).equity = s.equity ∧ (enterShort s sig c).dates = s.dates := by
  unfold enterShort
  split
  · exact ⟨rfl, rfl⟩
  · dsimp only
    split
    · exact ⟨rfl, rfl⟩
    · split
      · exact ⟨rfl, rfl⟩
      · exact ⟨rfl, rfl⟩

theorem exitAllPositions_frame (s : BTState) (c : Candle) (r : ExitReason) :
    (exitAllPositions s c r).equity = s.equity ∧ (exitAllPositions s c r).dates = s.dates := by
  unfold exitAllPositions
  have h := foldl_close_frame (fun st kv => btClosePosition st kv.1 c.close c.date r)
    (fun st kv => ⟨btClosePosition_equity st kv.1 c.close c.date r,
      btClosePosition_dates st kv.1 c.close c.date r⟩)
    s.positions s
  exact h

theorem processSignal_frame (s : BTState) (sig : BTSignal) (c : Candle) :
    (processSignal s sig c).equity = s.equity ∧ (processSignal s sig c).dates = s.dates := by
  unfold processSignal
  cases h : sig.type
  · exact enterLong_frame s sig c
  · exact enterShort_frame s sig c
  · exact exitAllPositions_frame s c .signal

theorem processSignalsUpTo_frame (c : Candle) :
    ∀ (sigs : List BTSignal) (s : BTState),
      (processSignalsUpTo s c sigs).1.equity = s.equity ∧
      (processSignalsUpTo s c sigs).1.dates = s.dates := by
  intro sigs
  induction sigs with
  | nil => intro s; exact ⟨rfl, rfl⟩
  | cons sig rest ih =>
      intro s
      unfold processSignalsUpTo
      split
      · exact ⟨(ih (processSignal s sig c)).1.trans (processSignal_frame s sig c).1,
          (ih (processSignal s sig c)).2.trans (processSignal_frame s sig c).2⟩
      · exact ⟨rfl, rfl⟩

theorem runLoop_spec (candles : List Candle) :
    ∀ (s : BTState) (sigs : List BTSignal),
      (runLoop s candles sigs).equity.length = s.equity.length + candles.length ∧
      (runLoop s candles sigs).dates.length = s.dates.length + candles.length ∧
      (s.equity ≠ [] → (runLoop s candles sigs).equity.head? = s.equity.head?) := by
  induction candles with
  | nil =>
      intro s sigs
      unfold runLoop
      exact ⟨rfl, rfl, fun _ => rfl⟩
  | cons c rest ih =>
      intro s sigs
      unfold runLoop
      dsimp only
      have hce := (checkExits_frame { s with dates := s.dates ++ [c.date] } c).1
      have hcd := (checkExits_frame { s with dates := s.dates ++ [c.date] } c).2
      have hpe := (processSignalsUpTo_frame c sigs
        (checkExits { s with dates := s.dates ++ [c.date] } c)).1
      have hpd := (processSignalsUpTo_frame c sigs
        (checkExits { s with dates := s.dates ++ [c.date] } c)).2
      have he : (processSignalsUpTo (checkExits { s with dates := s.dates ++ [c.date] } c)
          c sigs).1.equity = s.equity := by
        rw [hpe, hce]
      have hd : (processSignalsUpTo (checkExits { s with dates := s.dates ++ [c.date] } c)
          c sigs).1.dates = s.dates ++ [c.date] := by
        rw [hpd, hcd]
      obtain ⟨ih1, ih2, ih3⟩ := ih _ (processSignalsUpTo
        (checkExits { s with dates := s.dates ++ [c.date] } c) c sigs).2
      refine ⟨?_, ?_, ?_⟩
      · rw [ih1]
        simp [he]
        omega
      · rw [ih2]
        simp [hd]
        omega
      · intro hne
        rw [ih3 (by simp [he])]
        simp only [he]
        cases hsq : s.equity with
        | nil => exact absurd hsq hne
        | cons a t => simp

/-- C8: for every config, candle list and signal stream, the backtest's
equity curve has one entry per candle plus the initial-capital seed
(`length = n + 1`, `equity[0] = initialCapital`), and the date axis has one
entry per candle. -/
theorem C8_equity_curve (config : BacktestConfig) (data : List Candle)
    (signals : List BTSignal) :
    (runBacktest config data signals).equity.length = data.length + 1 ∧
    (runBacktest config data signals).equity.head? = some config.initialCapital ∧
    (runBacktest config data signals).dates.length = data.length := by
  unfold runBacktest
  obtain ⟨h1, h2, h3⟩ := runLoop_spec (data.mergeSort (fun a b => a.date ≤ b.date))
    ⟨config, config.initialCapital, [], [], [config.initialCapital], []⟩
    (signals.mergeSort (fun a b => a.date ≤ b.date))
  refine ⟨?_, ?_, ?_⟩
  · rw [h1]
    simp [List.length_mergeSort]
    omega
  · rw [h3 (by simp)]
    rfl
  · rw [h2]
    simp [List.length_mergeSort]
